import Mathlib

/-!
Verification of the indicator-backfilling pipeline of the
`Github_projects` repository (election-turnout data preparation plus the
marketing-email helper).

Each Lean definition is a shallow embedding of one Python function of the
repository:

* `backcasting_arima`, `update_df_after_arima_backcasting`,
  `extrapolate_backwards_one_county`, `extrapolate_missing_2000_2001`,
  `update_terc_codes`, `merge_df_by_voivodeship` come from
  `Presidential_election_ver_2/data_cleaning_methods.py`;
* `extrapolate_1999_data` comes from
  `Presidential_election_turnout_prediction_model/Notebooks/feature_engineering_methods.py`;
* `generate_email` comes from
  `E-commerce_Marketing_Automation_Agent/src/ai_agent_methods.py`.

Data frames are embedded as lists of row structures; a pandas `NaN` cell is
`Option.none`; a Python function that can raise is embedded as an
`Option`/`Except`-valued function whose `none`/`error` result marks the
escaping exception.  Floating point numbers are embedded as rationals;
`numpy.round`/Python `round` use round-half-to-even, embedded by
`roundHalfEven`.  The external ARIMA fitter (`pmdarima.auto_arima` together
with `model.predict`) is not code of this repository and is abstracted as an
explicit oracle parameter `fit : List ℚ → ℕ → Option (List ℚ)`; `none` is a
fitting exception, and the pmdarima contract that `predict(n_periods = n)`
yields exactly `n` values is taken as a hypothesis where a theorem needs it.
-/

namespace GithubProjects

/-- Round-half-to-even on rationals, the rounding used by `numpy.ndarray.round`
and by Python's built-in `round`. -/
def roundHalfEven (q : ℚ) : ℤ :=
  let f := ⌊q⌋
  let r := q - f
  if r < 1/2 then f else if 1/2 < r then f + 1 else if f % 2 = 0 then f else f + 1

/-- `numpy` `x.round(0)`: round to the nearest whole unit, keeping the value
in the (float, here: rational) carrier. -/
def round0 (q : ℚ) : ℚ := (roundHalfEven q : ℚ)

/-- Python `round(x, 1)`: round to one decimal place. -/
def round1 (q : ℚ) : ℚ := (roundHalfEven (10 * q) : ℚ) / 10

/-! ## `backcasting_arima` (data_cleaning_methods.py, lines 212-261)

```python
if len(values) < 3:
    return None
try:
    training_data = values[::-1]
    model = pm.auto_arima(training_data, ...)
    prediction = model.predict(n_periods=periods)
    return (county_id, prediction.round(0))
except Exception:
    return None
```

The call `pm.auto_arima` + `model.predict` is the oracle `fit`; any exception
inside the `try` block is the oracle answering `none`. -/

def backcasting_arima (fit : List ℚ → ℕ → Option (List ℚ))
    (county_id : String) (values : List ℚ) (periods : ℕ) :
    Option (String × List ℚ) :=
  if values.length < 3 then none
  else
    match fit values.reverse periods with
    | none => none
    | some prediction => some (county_id, prediction.map round0)

/-! ## `update_df_after_arima_backcasting` (data_cleaning_methods.py, 263-309)

A data-frame row: the composite key columns `county` and `year` plus the
remaining columns as an association list from column name to cell, where a
`none` cell is pandas `NaN`. -/

structure DRow where
  county : String
  year : ℤ
  cells : List (String × Option ℚ)
deriving DecidableEq, Repr

/-- The full stored entry of column `c` (distinguishes an absent column,
outer `none`, from a present-but-`NaN` cell, `some none`). -/
def getCellEntry (cells : List (String × Option ℚ)) (c : String) :
    Option (String × Option ℚ) :=
  cells.find? (fun p => p.1 = c)

/-- `pandas.DataFrame.update` writes a (non-`NaN`) value into an existing
column; it never creates a column, so a key that is not present is left
alone. -/
def setCell (cells : List (String × Option ℚ)) (c : String) (v : ℚ) :
    List (String × Option ℚ) :=
  cells.map (fun p => if p.1 = c then (p.1, some v) else p)

/-- The `counties`/`years`/`values` triples accumulated by the loop
`for county, preds in valid_results: for i, val in enumerate(preds):
 years.append(nearest_year - i)`. -/
def build_updates (valid_results : List (String × List ℚ)) (nearest_year : ℤ) :
    List (String × ℤ × ℚ) :=
  valid_results.flatMap (fun cr =>
    cr.2.enum.map (fun iv => (cr.1, nearest_year - (iv.1 : ℤ), iv.2)))

/-- Value the `updates_df`, indexed by `(county, year)`, holds at a key. -/
def lookupUpdate (ups : List (String × ℤ × ℚ)) (c : String) (y : ℤ) :
    Option ℚ :=
  (ups.find? (fun u => u.1 = c ∧ u.2.1 = y)).map (fun u => u.2.2)

/-- `dataframe.set_index(["county","year"]); dataframe.update(updates_df);
dataframe.reset_index()`: every row whose `(county, year)` key carries a
prediction gets `column_name` overwritten; every other row is untouched;
no row is inserted. -/
def update_df_after_arima_backcasting (df : List DRow)
    (valid_results : List (String × List ℚ)) (column_name : String)
    (nearest_year : ℤ) : List DRow :=
  let ups := build_updates valid_results nearest_year
  df.map (fun r =>
    match lookupUpdate ups r.county r.year with
    | some v => { r with cells := setCell r.cells column_name v }
    | none => r)

/-! ### Helper lemmas about cell updates -/

theorem setCell_keys (cells : List (String × Option ℚ)) (c : String) (v : ℚ) :
    (setCell cells c v).map Prod.fst = cells.map Prod.fst := by
  induction cells with
  | nil => rfl
  | cons p ps ih =>
    by_cases h : p.1 = c <;> simp [setCell, h] at ih ⊢ <;> exact ih

theorem getCellEntry_setCell_ne (cells : List (String × Option ℚ))
    (c c2 : String) (v : ℚ) (h : c2 ≠ c) :
    getCellEntry (setCell cells c v) c2 = getCellEntry cells c2 := by
  induction cells with
  | nil => rfl
  | cons p ps ih =>
    unfold getCellEntry setCell at ih ⊢
    rw [List.map_cons]
    by_cases hp : p.1 = c
    · have h2 : ¬ (p.1 = c2) := by rw [hp]; exact fun hc => h hc.symm
      rw [if_pos hp, List.find?_cons_of_neg, List.find?_cons_of_neg]
      · exact ih
      · simpa using h2
      · simpa using h2
    · rw [if_neg hp]
      by_cases hp2 : p.1 = c2
      · rw [List.find?_cons_of_pos, List.find?_cons_of_pos] <;> simpa using hp2
      · rw [List.find?_cons_of_neg, List.find?_cons_of_neg]
        · exact ih
        · simpa using hp2
        · simpa using hp2

theorem setCell_setCell (cells : List (String × Option ℚ)) (c : String) (v : ℚ) :
    setCell (setCell cells c v) c v = setCell cells c v := by
  induction cells with
  | nil => rfl
  | cons p ps ih =>
    by_cases h : p.1 = c <;> simp [setCell, h] at ih ⊢ <;> exact ih

/-- Looking a `(county, year)` key up in the update triples built from a
single `(county_id, predictions)` pair, enumerated from offset `n`:
the key is hit exactly when the county matches and
`nearest_year - year` falls in `[n, n + predictions.length)`, and the value
is the prediction at that offset. -/
theorem lookupUpdate_enumFrom (rd : List ℚ) (cid c : String) (ny y : ℤ)
    (n : ℕ) :
    lookupUpdate ((rd.enumFrom n).map
        (fun iv => (cid, ny - (iv.1 : ℤ), iv.2))) c y =
      if c = cid ∧ (n : ℤ) ≤ ny - y ∧ ny - y < (n : ℤ) + rd.length then
        some (rd.getD ((ny - y).toNat - n) 0)
      else none := by
  induction rd generalizing n with
  | nil =>
    have hno : ¬(c = cid ∧ (n : ℤ) ≤ ny - y ∧
        ny - y < (n : ℤ) + (([] : List ℚ).length : ℤ)) := by
      rintro ⟨_, h1, h2⟩
      simp at h2
      omega
    rw [if_neg hno]
    rfl
  | cons a l ih =>
    rw [List.enumFrom_cons, List.map_cons]
    unfold lookupUpdate
    by_cases hc : c = cid
    · by_cases hy : ny - (n : ℤ) = y
      · rw [List.find?_cons_of_pos]
        · have hsel : (n : ℤ) ≤ ny - y ∧ ny - y < (n : ℤ) + (a :: l).length := by
            simp only [List.length_cons]
            omega
          rw [if_pos ⟨hc, hsel⟩]
          have : ((ny - y).toNat - n) = 0 := by omega
          simp [this]
        · simp [hc, hy]
      · rw [List.find?_cons_of_neg]
        · have := ih (n + 1)
          unfold lookupUpdate at this
          rw [this]
          by_cases hin : ((n : ℤ) + 1 ≤ ny - y ∧ ny - y < ((n : ℕ) + 1 : ℤ) + l.length)
          · rw [if_pos ⟨hc, by omega⟩,
              if_pos ⟨hc, by simp only [List.length_cons]; push_cast; omega⟩]
            have hk : ((ny - y).toNat - n) = ((ny - y).toNat - (n + 1)) + 1 := by
              omega
            rw [hk]
            simp
          · rw [if_neg, if_neg]
            · intro hcon
              push_cast at hin
              rcases hcon with ⟨_, h1, h2⟩
              simp at h2
              exact hin ⟨by omega, by omega⟩
            · intro hcon
              push_cast at hin
              rcases hcon with ⟨_, h1, h2⟩
              exact hin ⟨by omega, by omega⟩
        · simp [hc, hy]
    · rw [List.find?_cons_of_neg]
      · have := ih (n + 1)
        unfold lookupUpdate at this
        rw [this, if_neg, if_neg]
        · exact fun hcon => hc hcon.1
        · exact fun hcon => hc hcon.1
      · simp
        intro h
        exact absurd h.symm hc

/-- A degenerate stand-in for the ARIMA oracle, used only to instantiate
hypothesis-bearing theorems at concrete inputs: it always "converges" and
predicts the constant `q` for every requested period. -/
def constFit (q : ℚ) : List ℚ → ℕ → Option (List ℚ) :=
  fun _ n => some (List.replicate n q)

/-- C1: for a series with at least 3 observations whose model fit succeeds,
`backcasting_arima` returns exactly `periods` predictions, each the
half-even rounding of the model output, and
`update_df_after_arima_backcasting` assigns prediction `i` to year
`nearest_year - i`: a row of the backcast county receives a value exactly
when its year lies in `(nearest_year - periods, nearest_year]`, namely the
prediction indexed by `nearest_year - year`; all other rows are unchanged. -/
theorem backcasting_assigns_N_rounded_predictions_to_descending_years
    (fit : List ℚ → ℕ → Option (List ℚ)) (cid : String) (values : List ℚ)
    (periods : ℕ) (ps : List ℚ) (df : List DRow) (col : String) (ny : ℤ)
    (h3 : 3 ≤ values.length)
    (hfit : fit values.reverse periods = some ps)
    (hlen : ps.length = periods) :
    backcasting_arima fit cid values periods = some (cid, ps.map round0) ∧
    (ps.map round0).length = periods ∧
    (∀ i, i < periods →
      (ps.map round0).getD i 0 = ((roundHalfEven (ps.getD i 0) : ℤ) : ℚ)) ∧
    update_df_after_arima_backcasting df [(cid, ps.map round0)] col ny =
      df.map (fun r =>
        if r.county = cid ∧ ny - (periods : ℤ) < r.year ∧ r.year ≤ ny then
          { r with cells :=
              setCell r.cells col ((ps.map round0).getD (ny - r.year).toNat 0) }
        else r) := by
  refine ⟨?_, ?_, ?_, ?_⟩
  · unfold backcasting_arima
    rw [if_neg (by omega), hfit]
  · simpa using hlen
  · intro i hi
    have hi' : i < ps.length := by omega
    simp [List.getD_eq_getElem?_getD, List.getElem?_map,
      List.getElem?_eq_getElem hi', round0]
  · unfold update_df_after_arima_backcasting
    have hb : build_updates [(cid, ps.map round0)] ny =
        ((ps.map round0).enumFrom 0).map
          (fun iv => (cid, ny - (iv.1 : ℤ), iv.2)) := by
      simp [build_updates, List.enum]
    rw [hb]
    apply List.map_congr_left
    intro r _
    rw [lookupUpdate_enumFrom]
    simp only [Nat.cast_zero]
    by_cases hcnd : r.county = cid ∧ ny - (periods : ℤ) < r.year ∧ r.year ≤ ny
    · have hsel : r.county = cid ∧ (0 : ℤ) ≤ ny - r.year ∧
          ny - r.year < (0 : ℤ) + ((ps.map round0).length : ℤ) := by
        refine ⟨hcnd.1, by omega, ?_⟩
        simp only [List.length_map, hlen]
        omega
      rw [if_pos hsel, if_pos hcnd]
      simp
    · rw [if_neg, if_neg hcnd]
      intro hcon
      rcases hcon with ⟨h1, h2, h3'⟩
      simp only [List.length_map, hlen] at h3'
      exact hcnd ⟨h1, by omega, by omega⟩

/-- Closed instantiation of C1: a 3-point series, 2 periods, a constant
oracle predicting 5/2 (which rounds half-to-even to 2), and a 1-row frame. -/
theorem backcasting_assigns_N_rounded_predictions_witness :
    (3 ≤ ([1, 2, 3] : List ℚ).length) ∧
    (constFit (5/2) ([1, 2, 3] : List ℚ).reverse 2 = some [5/2, 5/2]) ∧
    (([5/2, 5/2] : List ℚ).length = 2) ∧
    backcasting_arima (constFit (5/2)) "A" [1, 2, 3] 2 =
      some ("A", ([5/2, 5/2] : List ℚ).map round0) :=
  have hfit : constFit (5/2) ([1, 2, 3] : List ℚ).reverse 2 = some [5/2, 5/2] := by
    simp [constFit, List.replicate]
  ⟨by simp, hfit, by simp,
    (backcasting_assigns_N_rounded_predictions_to_descending_years
      (constFit (5/2)) "A" [1, 2, 3] 2 [5/2, 5/2] [] "p" 2000
      (by simp) hfit (by simp)).1⟩

/-- C2: `backcasting_arima` is a total function into `Option`: a series
shorter than 3 observations gives `none`, a fitting failure (the oracle's
`none`, i.e. the caught exception) gives `none`, and any `some` answer is the
`(county_id, rounded predictions)` pair with exactly `periods` predictions —
never a partial list.  (Totality itself — no exception ever escapes — is the
fact that the embedding is a Lean function into `Option`; the `try/except`
boundary is the oracle's `Option`.) -/
theorem backcasting_short_series_or_failure_gives_none
    (fit : List ℚ → ℕ → Option (List ℚ)) (cid : String) (values : List ℚ)
    (periods : ℕ)
    (hlen : ∀ ps, fit values.reverse periods = some ps → ps.length = periods) :
    (values.length < 3 → backcasting_arima fit cid values periods = none) ∧
    (fit values.reverse periods = none →
      backcasting_arima fit cid values periods = none) ∧
    (∀ t, backcasting_arima fit cid values periods = some t →
      t.1 = cid ∧ t.2.length = periods ∧
      ∃ ps, fit values.reverse periods = some ps ∧ t.2 = ps.map round0) := by
  unfold backcasting_arima
  by_cases h3 : values.length < 3
  · rw [if_pos h3]
    exact ⟨fun _ => rfl, fun _ => rfl, fun t ht => absurd ht (by simp)⟩
  · rw [if_neg h3]
    cases hf : fit values.reverse periods with
    | none =>
      exact ⟨fun h => absurd h h3, fun _ => rfl, fun t ht => absurd ht (by simp)⟩
    | some ps =>
      refine ⟨fun h => absurd h h3, fun h => absurd h (by simp), ?_⟩
      intro t ht
      simp only [Option.some.injEq] at ht
      subst ht
      exact ⟨rfl, by simpa using hlen ps hf, ps, rfl, rfl⟩

/-- Closed instantiation of C2: a 2-observation series is refused with
`none` even though the oracle would have answered. -/
theorem backcasting_short_series_witness :
    (∀ ps, constFit 0 ([1, 2] : List ℚ).reverse 4 = some ps → ps.length = 4) ∧
    backcasting_arima (constFit 0) "A" [1, 2] 4 = none :=
  have hh : ∀ ps, constFit 0 ([1, 2] : List ℚ).reverse 4 = some ps →
      ps.length = 4 := by
    intro ps h
    simp only [constFit, Option.some.injEq] at h
    rw [← h]
    simp
  ⟨hh, (backcasting_short_series_or_failure_gives_none
      (constFit 0) "A" [1, 2] 4 hh).1 (by simp)⟩

/-- C3: the reconciliation `update_df_after_arima_backcasting` is
update-only: the output has the same row count, and row-by-row the key
columns `county`/`year` are unchanged, the column set (cell keys) is
unchanged (so no column is created or dropped and the target column keeps a
numeric — here rational — carrier), every column other than the target one
is untouched, and a row whose `(county, year)` key carries no prediction is
returned verbatim; in particular no row is created for a key absent from
the input. -/
theorem update_df_after_arima_backcasting_is_update_only
    (df : List DRow) (vr : List (String × List ℚ)) (col : String) (ny : ℤ) :
    (update_df_after_arima_backcasting df vr col ny).length = df.length ∧
    List.Forall₂ (fun r s : DRow =>
        s.county = r.county ∧ s.year = r.year ∧
        s.cells.map Prod.fst = r.cells.map Prod.fst ∧
        (∀ c2, c2 ≠ col → getCellEntry s.cells c2 = getCellEntry r.cells c2) ∧
        (lookupUpdate (build_updates vr ny) r.county r.year = none → s = r))
      df (update_df_after_arima_backcasting df vr col ny) := by
  constructor
  · simp [update_df_after_arima_backcasting]
  · unfold update_df_after_arima_backcasting
    rw [List.forall₂_map_right_iff, List.forall₂_same]
    intro r _
    cases hl : lookupUpdate (build_updates vr ny) r.county r.year with
    | none => simp [hl]
    | some v =>
      simp only [hl]
      exact ⟨by simp, by simp, by simpa using setCell_keys r.cells col v,
        fun c2 hc2 => by simpa using getCellEntry_setCell_ne r.cells col c2 v hc2,
        fun hcon => absurd hcon (by simp)⟩

/-- C4: reconciliation is idempotent — applying the same update set twice
yields the same table as applying it once. -/
theorem update_df_after_arima_backcasting_idempotent
    (df : List DRow) (vr : List (String × List ℚ)) (col : String) (ny : ℤ) :
    update_df_after_arima_backcasting
        (update_df_after_arima_backcasting df vr col ny) vr col ny =
      update_df_after_arima_backcasting df vr col ny := by
  unfold update_df_after_arima_backcasting
  rw [List.map_map]
  apply List.map_congr_left
  intro r _
  simp only [Function.comp]
  cases hl : lookupUpdate (build_updates vr ny) r.county r.year with
  | none => simp [hl]
  | some v => simp [hl, setCell_setCell]

/-! ## The linear extrapolation passes (data_cleaning_methods.py, 107-210)

`extrapolate_backwards_one_county` and `extrapolate_missing_2000_2001` read
and write a single named indicator column of the frame besides the key
columns `county` and `year`; the embedding projects the frame onto these
three, a `CRow` holding the named column's cell (`none` = `NaN`). -/

structure CRow where
  county : String
  year : ℤ
  val : Option ℚ
deriving DecidableEq, Repr

/-- Generic insertion step of an insertion sort with a boolean order. -/
def insertSorted (le : α → α → Bool) (x : α) : List α → List α
  | [] => [x]
  | y :: ys => if le x y then x :: y :: ys else y :: insertSorted le x ys

/-- Insertion sort; the embedding of `DataFrame.sort_values` (on frames whose
sort keys are pairwise distinct, the kind-of-sort distinction of pandas is
irrelevant and any comparison sort computes this same list). -/
def insSort (le : α → α → Bool) : List α → List α
  | [] => []
  | x :: xs => insertSorted le x (insSort le xs)

def rowYearLe (a b : CRow) : Bool := a.year ≤ b.year

/-- `sort_values("year")` on the projected frame. -/
def sortByYear (l : List CRow) : List CRow := insSort rowYearLe l

/-- `np.polyfit(X, y, 1)` (degree-1 least squares) on `(year, value)` points,
followed by the evaluation closure `predict = lambda yr: slope*yr + intercept`.
The outer `none` embeds the raised exception on a degenerate design matrix
(fewer than two distinct x-values); the inner `none` embeds `NaN`
coefficients, which `numpy` produces when a training value is `NaN`. -/
def fitLinearN (pts : List (ℚ × Option ℚ)) : Option (Option (ℚ × ℚ)) :=
  let xs := pts.map Prod.fst
  let n : ℚ := xs.length
  let sx := xs.sum
  let sxx := (xs.map (fun x => x * x)).sum
  let den := n * sxx - sx * sx
  if den = 0 then none
  else if pts.all (fun p => p.2.isSome) then
    let sy := (pts.map (fun p => p.2.getD 0)).sum
    let sxy := (pts.map (fun p => p.1 * p.2.getD 0)).sum
    let slope := (n * sxy - sx * sy) / den
    some (some (slope, (sy - slope * sx) / n))
  else some none

/-- `slope * yr + intercept`, propagating `NaN` coefficients. -/
def predN (co : Option (ℚ × ℚ)) (x : ℚ) : Option ℚ :=
  co.map (fun sc => sc.1 * x + sc.2)

/-- `list(range(year_x, year_y + 1))`. -/
def targetYears (year_x year_y : ℤ) : List ℤ :=
  (List.range (year_y + 1 - year_x).toNat).map
    (fun (i : ℕ) => year_x + (i : ℤ))

/-- `extrapolate_backwards_one_county` (data_cleaning_methods.py, 107-151):
train on the county's rows with `year_y + 1 <= year <= 2024`, fit a linear
trend, then loop over the target years writing `round(predict(year), 1)`
into the county's row of that year. -/
def extrapolate_backwards_one_county (df : List CRow) (county_name : String)
    (year_x year_y : ℤ) : Option (List CRow) :=
  let sub := df.filter (fun r => r.county = county_name)
  let train := sortByYear (sub.filter
    (fun r => year_y + 1 ≤ r.year ∧ r.year ≤ 2024))
  match fitLinearN (train.map (fun r => ((r.year : ℚ), r.val))) with
  | none => none
  | some co =>
      some ((targetYears year_x year_y).foldl
        (fun d yr => d.map (fun r =>
          if r.county = county_name ∧ r.year = yr then
            { r with val := (predN co (yr : ℚ)).map round1 }
          else r)) df)

/-- One target year of `extrapolate_missing_2000_2001`:
`if mask.any(): forecast = predict(yr); if forecast <= 0:
 df.loc[mask, col] = round(val_2002, 1) else: ... round(forecast, 1)`.
A `NaN` forecast (the `predN` result `none`) compares `False` against 0 in
Python, and `round(nan, 1)` is again `NaN`, hence the `bind`. -/
def assignYearC6 (county : String) (val2002 : Option ℚ) (co : Option (ℚ × ℚ))
    (d : List CRow) (yr : ℤ) : List CRow :=
  if d.any (fun r => r.county = county ∧ r.year = yr) then
    d.map (fun r =>
      if r.county = county ∧ r.year = yr then
        { r with val := (predN co (yr : ℚ)).bind (fun forecast =>
            if forecast ≤ 0 then val2002.map round1
            else some (round1 forecast)) }
      else r)
  else d

/-- One county's pass of `extrapolate_missing_2000_2001`
(data_cleaning_methods.py, 153-210): train on the rows with year in
{2002, 2003, 2004}, read `val_2002` (the `.values[0]` `IndexError` when the
county has no 2002 row, and the `np.polyfit` failure on a degenerate window,
are uncaught exceptions; the `Option` binds propagate them), then assign
year 2001 and then year 2000. -/
def extrapOneCounty2000_2001 (df : List CRow) (county : String) :
    Option (List CRow) :=
  let sub := df.filter (fun r => r.county = county)
  let train := sortByYear (sub.filter
    (fun r => r.year = 2002 ∨ r.year = 2003 ∨ r.year = 2004))
  ((sub.find? (fun r => r.year = 2002)).map (fun r => r.val)).bind
    (fun val2002 =>
      (fitLinearN (train.map (fun r => ((r.year : ℚ), r.val)))).map
        (fun co =>
          assignYearC6 county val2002 co
            (assignYearC6 county val2002 co df 2001) 2000))

/-- `dataframe["county"].unique()` in first-appearance order. -/
def uniqueCounties (df : List CRow) : List String :=
  df.foldl (fun acc r => if r.county ∈ acc then acc else acc ++ [r.county]) []

/-- `extrapolate_missing_2000_2001`: the per-county pass folded over the
unique counties; a raised exception in any pass aborts the loop. -/
def extrapolate_missing_2000_2001 (df : List CRow) : Option (List CRow) :=
  (uniqueCounties df).foldlM
    (fun acc county => extrapOneCounty2000_2001 acc county) df

/-- A fold of per-year full-frame rewrites commutes into one map of
per-row folds. -/
theorem foldl_map_comm (yrs : List ℤ) (df : List CRow) (g : ℤ → CRow → CRow) :
    yrs.foldl (fun d yr => d.map (g yr)) df =
      df.map (fun r => yrs.foldl (fun s yr => g yr s) r) := by
  induction yrs generalizing df with
  | nil => simp
  | cons y ys ih =>
    simp only [List.foldl_cons]
    rw [ih, List.map_map]
    rfl

/-- Folding the per-year masked assignment over a list of years touches a
row at most once: the row ends updated (with the value determined by its own
year alone) exactly when its county matches and its year is in the list. -/
theorem foldl_assign_row (county : String) (v : ℤ → Option ℚ)
    (yrs : List ℤ) (r : CRow) :
    yrs.foldl (fun s yr =>
        if s.county = county ∧ s.year = yr then { s with val := v yr } else s) r =
      if r.county = county ∧ r.year ∈ yrs then { r with val := v r.year }
      else r := by
  induction yrs generalizing r with
  | nil => simp
  | cons y ys ih =>
    simp only [List.foldl_cons]
    by_cases hc : r.county = county
    · by_cases hy : r.year = y
      · rw [if_pos ⟨hc, hy⟩, ih]
        by_cases hmem : r.year ∈ ys
        · rw [if_pos ⟨hc, hmem⟩, if_pos ⟨hc, by simp [hy]⟩]
        · rw [if_neg (by simpa using fun _ => hmem),
            if_pos ⟨hc, by simp [hy]⟩, hy]
      · rw [if_neg (by simpa using fun _ => hy), ih]
        by_cases hmem : r.year ∈ ys
        · rw [if_pos ⟨hc, hmem⟩, if_pos ⟨hc, by simp [hmem]⟩]
        · rw [if_neg (by simpa using fun _ => hmem),
            if_neg (by simpa using fun _ => ⟨hy, hmem⟩)]
    · rw [if_neg (by simpa using fun hcon => absurd hcon hc), ih,
        if_neg (by simpa using fun hcon => absurd hcon hc),
        if_neg (by simpa using fun hcon => absurd hcon hc)]

theorem mem_targetYears {yr year_x year_y : ℤ} :
    yr ∈ targetYears year_x year_y ↔ year_x ≤ yr ∧ yr ≤ year_y := by
  unfold targetYears
  constructor
  · intro h
    obtain ⟨i, hi, rfl⟩ := List.mem_map.1 h
    have hi2 := List.mem_range.1 hi
    omega
  · rintro ⟨h1, h2⟩
    exact List.mem_map.2
      ⟨(yr - year_x).toNat, List.mem_range.2 (by omega), by omega⟩

/-- C7: when the linear fit succeeds, `extrapolate_backwards_one_county`
maps the frame row-by-row: a row of the named county whose year lies in the
target range `[year_x, year_y]` receives `round(predicted, 1)` for its own
year, and every other row — other counties, or years outside the range — is
unchanged.  The fit hypothesis exhibits the training window: only the
county's rows with `year_y + 1 ≤ year ≤ 2024` enter the fit. -/
theorem extrapolate_backwards_fills_target_range_from_window
    (df : List CRow) (county_name : String) (year_x year_y : ℤ)
    (co : Option (ℚ × ℚ))
    (hfit : fitLinearN ((sortByYear
        ((df.filter (fun r => r.county = county_name)).filter
          (fun r => year_y + 1 ≤ r.year ∧ r.year ≤ 2024))).map
        (fun r => ((r.year : ℚ), r.val))) = some co) :
    extrapolate_backwards_one_county df county_name year_x year_y =
      some (df.map (fun r =>
        if r.county = county_name ∧ year_x ≤ r.year ∧ r.year ≤ year_y then
          { r with val := (predN co (r.year : ℚ)).map round1 }
        else r)) := by
  unfold extrapolate_backwards_one_county
  simp only [hfit]
  rw [foldl_map_comm]
  refine congrArg some (List.map_congr_left ?_)
  intro r _
  rw [foldl_assign_row county_name
    (fun yr => (predN co (yr : ℚ)).map round1) (targetYears year_x year_y) r]
  by_cases hmem : r.county = county_name ∧ r.year ∈ targetYears year_x year_y
  · rw [if_pos hmem, if_pos ⟨hmem.1, mem_targetYears.1 hmem.2⟩]
  · rw [if_neg hmem, if_neg]
    intro hcon
    exact hmem ⟨hcon.1, mem_targetYears.2 ⟨hcon.2.1, hcon.2.2⟩⟩

/-- Closed instantiation of C7: constant series 3 over 2020-2022, target
range 2018-2019; both missing years are filled with `round(3.0, 1)` and the
other county's row is untouched. -/
theorem extrapolate_backwards_fills_target_range_witness :
    (fitLinearN ((sortByYear
        ((([⟨"A", 2018, none⟩, ⟨"A", 2019, none⟩, ⟨"A", 2020, some 3⟩,
            ⟨"A", 2021, some 3⟩, ⟨"A", 2022, some 3⟩, ⟨"B", 2018, some 9⟩]
            : List CRow).filter (fun r => r.county = "A")).filter
          (fun r => 2019 + 1 ≤ r.year ∧ r.year ≤ 2024))).map
        (fun r => ((r.year : ℚ), r.val))) = some (some (0, 3))) ∧
    extrapolate_backwards_one_county
        [⟨"A", 2018, none⟩, ⟨"A", 2019, none⟩, ⟨"A", 2020, some 3⟩,
         ⟨"A", 2021, some 3⟩, ⟨"A", 2022, some 3⟩, ⟨"B", 2018, some 9⟩]
        "A" 2018 2019 =
      some (([⟨"A", 2018, none⟩, ⟨"A", 2019, none⟩, ⟨"A", 2020, some 3⟩,
              ⟨"A", 2021, some 3⟩, ⟨"A", 2022, some 3⟩, ⟨"B", 2018, some 9⟩]
              : List CRow).map (fun r =>
        if r.county = "A" ∧ 2018 ≤ r.year ∧ r.year ≤ 2019 then
          { r with val := (predN (some (0, 3)) (r.year : ℚ)).map round1 }
        else r)) :=
  have hfit : fitLinearN ((sortByYear
      ((([⟨"A", 2018, none⟩, ⟨"A", 2019, none⟩, ⟨"A", 2020, some 3⟩,
          ⟨"A", 2021, some 3⟩, ⟨"A", 2022, some 3⟩, ⟨"B", 2018, some 9⟩]
          : List CRow).filter (fun r => r.county = "A")).filter
        (fun r => 2019 + 1 ≤ r.year ∧ r.year ≤ 2024))).map
      (fun r => ((r.year : ℚ), r.val))) = some (some (0, 3)) := by
    norm_num [sortByYear, insSort, insertSorted, rowYearLe, fitLinearN,
      List.filter]
  ⟨hfit, extrapolate_backwards_fills_target_range_from_window
    [⟨"A", 2018, none⟩, ⟨"A", 2019, none⟩, ⟨"A", 2020, some 3⟩,
     ⟨"A", 2021, some 3⟩, ⟨"A", 2022, some 3⟩, ⟨"B", 2018, some 9⟩]
    "A" 2018 2019 (some (0, 3)) hfit⟩

/-- Degree-1 least squares on the three equally spaced points
`(2002, a), (2003, b), (2004, c)` has slope `(c - a)/2` and intercept
`(a+b+c)/3 - (c-a)/2 * 2003`. -/
theorem fitLinearN_2002_2004 (a b c : ℚ) :
    fitLinearN [((2002 : ℚ), some a), ((2003 : ℚ), some b),
        ((2004 : ℚ), some c)] =
      some (some ((c - a) / 2, (a + b + c) / 3 - (c - a) / 2 * 2003)) := by
  unfold fitLinearN
  norm_num
  constructor
  · ring
  · ring



/-- A one-county frame with observed values at 2002-2004 and rows present
(with arbitrary prior content) at the two target years 2000 and 2001. -/
def frame2000_2004 (u w a b c : ℚ) : List CRow :=
  [⟨"X", 2000, some u⟩, ⟨"X", 2001, some w⟩, ⟨"X", 2002, some a⟩,
   ⟨"X", 2003, some b⟩, ⟨"X", 2004, some c⟩]

/-- C6: on a county with the full window — observations `a, b, c` at
2002-2004 and rows present at 2000 and 2001 — `extrapolate_missing_2000_2001`
fits the degree-1 trend on the 3-year training window 2002-2004 (slope
`s = (c-a)/2`, intercept `i = (a+b+c)/3 - s*2003`), and each target year
independently receives `round(val_2002, 1)` when its own prediction
`s*year + i` is non-positive and `round(prediction, 1)` otherwise: the 2000
cell depends only on `s*2000 + i` and the 2001 cell only on `s*2001 + i`,
so the floor decisions are independent of each other. -/
theorem extrapolate_missing_2000_2001_floor_per_year
    (u w a b c s i : ℚ)
    (hs : s = (c - a) / 2)
    (hi : i = (a + b + c) / 3 - s * 2003) :
    extrapolate_missing_2000_2001 (frame2000_2004 u w a b c) =
      some [⟨"X", 2000, if s * 2000 + i ≤ 0 then some (round1 a)
                        else some (round1 (s * 2000 + i))⟩,
            ⟨"X", 2001, if s * 2001 + i ≤ 0 then some (round1 a)
                        else some (round1 (s * 2001 + i))⟩,
            ⟨"X", 2002, some a⟩, ⟨"X", 2003, some b⟩,
            ⟨"X", 2004, some c⟩] := by
  have hfit : fitLinearN [(((2002 : ℤ) : ℚ), some a),
      (((2003 : ℤ) : ℚ), some b), (((2004 : ℤ) : ℚ), some c)] =
      some (some (s, i)) := by
    have h1 : ((2002 : ℤ) : ℚ) = (2002 : ℚ) := by norm_num
    have h2 : ((2003 : ℤ) : ℚ) = (2003 : ℚ) := by norm_num
    have h3 : ((2004 : ℤ) : ℚ) = (2004 : ℚ) := by norm_num
    rw [h1, h2, h3, fitLinearN_2002_2004, ← hs, ← hi]
  have hone : extrapOneCounty2000_2001 (frame2000_2004 u w a b c) "X" =
      some [⟨"X", 2000, if s * 2000 + i ≤ 0 then some (round1 a)
                        else some (round1 (s * 2000 + i))⟩,
            ⟨"X", 2001, if s * 2001 + i ≤ 0 then some (round1 a)
                        else some (round1 (s * 2001 + i))⟩,
            ⟨"X", 2002, some a⟩, ⟨"X", 2003, some b⟩,
            ⟨"X", 2004, some c⟩] := by
    have eval2002 : Option.map (fun r => r.val)
        (((frame2000_2004 u w a b c).filter
          (fun r => r.county = "X")).find? (fun r => r.year = 2002)) =
        some (some a) := rfl
    have etrain : (sortByYear (((frame2000_2004 u w a b c).filter
        (fun r => r.county = "X")).filter
          (fun r => r.year = 2002 ∨ r.year = 2003 ∨ r.year = 2004))).map
        (fun r => ((r.year : ℚ), r.val)) =
        [(((2002 : ℤ) : ℚ), some a), (((2003 : ℤ) : ℚ), some b),
         (((2004 : ℤ) : ℚ), some c)] := rfl
    unfold extrapOneCounty2000_2001
    simp only [eval2002, etrain, hfit, Option.some_bind, Option.map_some']
    norm_num [assignYearC6, predN, frame2000_2004]
  unfold extrapolate_missing_2000_2001
  have hcs : uniqueCounties (frame2000_2004 u w a b c) = ["X"] := rfl
  rw [hcs]
  simp only [List.foldlM_cons, List.foldlM_nil, hone]
  rfl

/-- Closed instantiation of C6: values 10, 20, 30 at 2002-2004 give slope 10
and intercept -20010; both predictions (-10 for 2000, 0 for 2001) trigger
the floor, so both target years receive `round(10, 1) = 10`. -/
theorem extrapolate_missing_2000_2001_floor_witness :
    ((10 : ℚ) = ((30 : ℚ) - 10) / 2) ∧
    ((-20010 : ℚ) = ((10 : ℚ) + 20 + 30) / 3 - 10 * 2003) ∧
    extrapolate_missing_2000_2001 (frame2000_2004 1 2 10 20 30) =
      some [⟨"X", 2000, some 10⟩, ⟨"X", 2001, some 10⟩, ⟨"X", 2002, some 10⟩,
            ⟨"X", 2003, some 20⟩, ⟨"X", 2004, some 30⟩] :=
  ⟨by norm_num, by norm_num, by
    have h := extrapolate_missing_2000_2001_floor_per_year 1 2 10 20 30 10
      (-20010) (by norm_num) (by norm_num)
    rw [h]
    norm_num [round1, roundHalfEven]⟩

/-! ## `extrapolate_1999_data` (feature_engineering_methods.py, 6-59)

Rows of the indicator frame: the key columns `terc_code` and `year`, the
non-indicator column `county`, and the remaining (indicator) columns as an
association list, a `none` cell being pandas `NaN`. -/

structure FRow where
  terc_code : String
  county : String
  year : ℤ
  cells : List (String × Option ℚ)
deriving DecidableEq, Repr

/-- The value stored in column `c` (`none`: absent or `NaN`). -/
def cellVal (cells : List (String × Option ℚ)) (c : String) : Option ℚ :=
  (cells.find? (fun p => p.1 = c)).bind (fun p => p.2)

/-- `(dataframe[col] >= 0).all()`: a `NaN` compares `False`, so any missing
value defeats the test.  (Pandas frames have uniform columns, so the
absent-column case never arises on the frames the theorems use.) -/
def nonnegAll (df : List FRow) (c : String) : Bool :=
  df.all (fun r => (cellVal r.cells c).elim false (fun v => decide (0 ≤ v)))

/-- Code-point lexicographic order on character lists, the order pandas
uses to sort a string column. -/
def charListLe : List Char → List Char → Bool
  | [], _ => true
  | _ :: _, [] => false
  | x :: xs, y :: ys => if x = y then charListLe xs ys else decide (x.toNat < y.toNat)

def strLe (a b : String) : Bool := charListLe a.data b.data

/-- The `sort_values(by=["terc_code", "year"])` key order. -/
def frowLe (a b : FRow) : Bool :=
  if a.terc_code = b.terc_code then a.year ≤ b.year
  else strLe a.terc_code b.terc_code

/-- `sort_values(by=["terc_code", "year"]).reset_index(drop=True)`. -/
def sortFRows (l : List FRow) : List FRow := insSort frowLe l

/-- One cell of the synthesized 1999 row: indicator columns get
`2*value(2000) - value(2001)`, clipped to a minimum of 0 when the whole
input column is non-negative; every other cell is copied from the 2000
row unchanged.  `NaN` on either side propagates through the `bind`/`map`. -/
def synthCell (df df2001 : List FRow) (inds : List String) (tc : String)
    (p : String × Option ℚ) : String × Option ℚ :=
  if p.1 ∈ inds then
    (p.1, p.2.bind (fun v2000 =>
      ((df2001.find? (fun s => s.terc_code = tc)).bind
        (fun s => cellVal s.cells p.1)).map (fun v2001 =>
          if nonnegAll df p.1 then max (2 * v2000 - v2001) 0
          else 2 * v2000 - v2001)))
  else p

/-- The block of synthesized 1999 rows: one per entity that has a row in
both 2000 and 2001 (`common_counties`), copied from its 2000 row with the
year replaced and the indicator cells recomputed. -/
def synth1999 (df : List FRow) (inds : List String) : List FRow :=
  let df2000 := df.filter (fun r => r.year = 2000)
  let df2001 := df.filter (fun r => r.year = 2001)
  let common := df2000.filter (fun r =>
    df2001.any (fun s => s.terc_code = r.terc_code))
  common.map (fun r =>
    { r with
      year := 1999
      cells := r.cells.map (synthCell df df2001 inds r.terc_code) })

/-- `extrapolate_1999_data`: the original frame concatenated with the
synthesized 1999 rows, re-sorted by `(terc_code, year)`. -/
def extrapolate_1999_data (df : List FRow) (inds : List String) : List FRow :=
  sortFRows (df ++ synth1999 df inds)

/-! ### The `(terc_code, year)` sort order is total and transitive -/

theorem char_toNat_inj {a b : Char} (h : a.toNat = b.toNat) : a = b := by
  unfold Char.toNat at h
  exact Char.ext (UInt32.toNat.inj h)

theorem charListLe_cons_cons (x y : Char) (xs ys : List Char) :
    charListLe (x :: xs) (y :: ys) =
      if x = y then charListLe xs ys else decide (x.toNat < y.toNat) := rfl

theorem charListLe_total (xs : List Char) :
    ∀ ys, charListLe xs ys = true ∨ charListLe ys xs = true := by
  induction xs with
  | nil => intro ys; exact Or.inl rfl
  | cons x xs ih =>
    intro ys
    cases ys with
    | nil => exact Or.inr rfl
    | cons y ys =>
      rw [charListLe_cons_cons, charListLe_cons_cons]
      by_cases h : x = y
      · rw [if_pos h, if_pos (Eq.symm h)]
        exact ih ys
      · rw [if_neg h, if_neg (fun hc => h (Eq.symm hc))]
        have hne : x.toNat ≠ y.toNat := fun hc => h (char_toNat_inj hc)
        rcases Nat.lt_or_ge x.toNat y.toNat with hlt | hge
        · exact Or.inl (decide_eq_true hlt)
        · exact Or.inr (decide_eq_true (by omega))

theorem charListLe_trans (xs : List Char) :
    ∀ ys zs, charListLe xs ys = true → charListLe ys zs = true →
      charListLe xs zs = true := by
  induction xs with
  | nil => intro ys zs _ _; rfl
  | cons x xs ih =>
    intro ys zs hxy hyz
    cases ys with
    | nil => simp [charListLe] at hxy
    | cons y ys =>
      cases zs with
      | nil => simp [charListLe] at hyz
      | cons z zs =>
        rw [charListLe_cons_cons] at hxy hyz ⊢
        by_cases h1 : x = y
        · rw [if_pos h1] at hxy
          by_cases h2 : y = z
          · rw [if_pos h2] at hyz
            rw [if_pos (h1.trans h2)]
            exact ih ys zs hxy hyz
          · rw [if_neg h2] at hyz
            have h3 : ¬ x = z := fun hc => h2 ((Eq.symm h1).trans hc)
            rw [if_neg h3, h1]
            exact hyz
        · rw [if_neg h1] at hxy
          have hxy2 : x.toNat < y.toNat := of_decide_eq_true hxy
          by_cases h2 : y = z
          · have h3 : ¬ x = z := fun hc => h1 (hc.trans (Eq.symm h2))
            rw [if_neg h3]
            exact decide_eq_true (by rw [← h2]; exact hxy2)
          · rw [if_neg h2] at hyz
            have hyz2 : y.toNat < z.toNat := of_decide_eq_true hyz
            have h3 : ¬ x = z := by
              intro hc
              rw [hc] at hxy2
              omega
            rw [if_neg h3]
            exact decide_eq_true (by omega)

theorem charListLe_antisymm (xs : List Char) :
    ∀ ys, charListLe xs ys = true → charListLe ys xs = true → xs = ys := by
  induction xs with
  | nil =>
    intro ys _ hyx
    cases ys with
    | nil => rfl
    | cons y ys => simp [charListLe] at hyx
  | cons x xs ih =>
    intro ys hxy hyx
    cases ys with
    | nil => simp [charListLe] at hxy
    | cons y ys =>
      rw [charListLe_cons_cons] at hxy hyx
      by_cases h1 : x = y
      · rw [if_pos h1] at hxy
        rw [if_pos (Eq.symm h1)] at hyx
        rw [h1, ih ys hxy hyx]
      · rw [if_neg h1] at hxy
        rw [if_neg (fun hc => h1 (Eq.symm hc))] at hyx
        have h2 := of_decide_eq_true hxy
        have h3 := of_decide_eq_true hyx
        omega

theorem strLe_total (a b : String) : strLe a b = true ∨ strLe b a = true :=
  charListLe_total a.data b.data

theorem strLe_trans {a b c : String} (h1 : strLe a b = true)
    (h2 : strLe b c = true) : strLe a c = true :=
  charListLe_trans a.data b.data c.data h1 h2

theorem strLe_antisymm {a b : String} (h1 : strLe a b = true)
    (h2 : strLe b a = true) : a = b :=
  String.ext (charListLe_antisymm a.data b.data h1 h2)

theorem frowLe_total (a b : FRow) : frowLe a b = true ∨ frowLe b a = true := by
  unfold frowLe
  by_cases h : a.terc_code = b.terc_code
  · rw [if_pos h, if_pos (Eq.symm h)]
    rcases Int.le_total a.year b.year with h1 | h1
    · exact Or.inl (decide_eq_true h1)
    · exact Or.inr (decide_eq_true h1)
  · rw [if_neg h, if_neg (fun hc => h (Eq.symm hc))]
    exact strLe_total a.terc_code b.terc_code

theorem frowLe_trans (a b c : FRow) (h1 : frowLe a b = true)
    (h2 : frowLe b c = true) : frowLe a c = true := by
  unfold frowLe at h1 h2 ⊢
  by_cases hab : a.terc_code = b.terc_code
  · rw [if_pos hab] at h1
    by_cases hbc : b.terc_code = c.terc_code
    · rw [if_pos hbc] at h2
      rw [if_pos (hab.trans hbc)]
      have g1 := of_decide_eq_true h1
      have g2 := of_decide_eq_true h2
      exact decide_eq_true (by omega)
    · rw [if_neg hbc] at h2
      rw [if_neg (fun hc => hbc ((Eq.symm hab).trans hc)), hab]
      exact h2
  · rw [if_neg hab] at h1
    by_cases hbc : b.terc_code = c.terc_code
    · rw [if_neg (fun hc => hab (hc.trans (Eq.symm hbc))), ← hbc]
      exact h1
    · rw [if_neg hbc] at h2
      by_cases hac : a.terc_code = c.terc_code
      · exact absurd (strLe_antisymm h1 (hac ▸ h2)) hab
      · rw [if_neg hac]
        exact strLe_trans h1 h2

/-! ### Insertion sort: permutation and sortedness -/

theorem insertSorted_perm (le : α → α → Bool) (x : α) (l : List α) :
    (insertSorted le x l).Perm (x :: l) := by
  induction l with
  | nil => exact List.Perm.refl _
  | cons y ys ih =>
    unfold insertSorted
    by_cases h : le x y = true
    · rw [if_pos h]
    · rw [if_neg h]
      exact (ih.cons y).trans (List.Perm.swap x y ys)

theorem insSort_perm (le : α → α → Bool) (l : List α) :
    (insSort le l).Perm l := by
  induction l with
  | nil => exact List.Perm.refl _
  | cons x xs ih =>
    exact (insertSorted_perm le x (insSort le xs)).trans (ih.cons x)

theorem insertSorted_pairwise (le : α → α → Bool)
    (htotal : ∀ a b, le a b = true ∨ le b a = true)
    (htrans : ∀ a b c, le a b = true → le b c = true → le a c = true)
    (x : α) (l : List α) (hl : l.Pairwise (fun a b => le a b = true)) :
    (insertSorted le x l).Pairwise (fun a b => le a b = true) := by
  induction l with
  | nil => simp [insertSorted]
  | cons y ys ih =>
    rcases List.pairwise_cons.1 hl with ⟨hy, hys⟩
    unfold insertSorted
    by_cases h : le x y = true
    · rw [if_pos h]
      refine List.pairwise_cons.2 ⟨?_, hl⟩
      intro z hz
      rcases List.mem_cons.1 hz with rfl | hz2
      · exact h
      · exact htrans x y z h (hy z hz2)
    · rw [if_neg h]
      have hyx : le y x = true := (htotal x y).resolve_left h
      refine List.pairwise_cons.2 ⟨?_, ih hys⟩
      intro z hz
      have hz2 : z ∈ x :: ys := (insertSorted_perm le x ys).mem_iff.1 hz
      rcases List.mem_cons.1 hz2 with rfl | hz3
      · exact hyx
      · exact hy z hz3

theorem insSort_pairwise (le : α → α → Bool)
    (htotal : ∀ a b, le a b = true ∨ le b a = true)
    (htrans : ∀ a b c, le a b = true → le b c = true → le a c = true)
    (l : List α) :
    (insSort le l).Pairwise (fun a b => le a b = true) := by
  induction l with
  | nil => simp [insSort]
  | cons x xs ih => exact insertSorted_pairwise le htotal htrans x _ ih

/-- `find?` by key commutes with a map that fixes every key. -/
theorem find?_map_keyfixed (f : String × Option ℚ → String × Option ℚ)
    (hf : ∀ p, (f p).1 = p.1) (cells : List (String × Option ℚ))
    (col : String) (pc : String × Option ℚ)
    (h : cells.find? (fun p => p.1 = col) = some pc) :
    (cells.map f).find? (fun p => p.1 = col) = some (f pc) := by
  induction cells with
  | nil => simp at h
  | cons q qs ih =>
    by_cases hq : q.1 = col
    · rw [List.find?_cons_of_pos _ (by simpa using hq)] at h
      simp only [Option.some.injEq] at h
      subst h
      rw [List.map_cons,
        List.find?_cons_of_pos _ (by simpa using (hf q).trans hq)]
    · rw [List.find?_cons_of_neg _ (by simpa using hq)] at h
      rw [List.map_cons, List.find?_cons_of_neg _
        (by simpa using fun hc => hq ((hf q).symm.trans hc))]
      exact ih h

theorem synthCell_fst (df df2001 : List FRow) (inds : List String)
    (tc : String) (p : String × Option ℚ) :
    (synthCell df df2001 inds tc p).1 = p.1 := by
  unfold synthCell
  by_cases h : p.1 ∈ inds
  · rw [if_pos h]
  · rw [if_neg h]

/-- C5: for every entity with rows in both 2000 and 2001 and every
indicator column, `extrapolate_1999_data` returns a permutation of the
original frame concatenated with the synthesized 1999 rows, sorted by
`(terc_code, year)`, and the synthesized row of that entity carries
`2*value(2000) - value(2001)` in the indicator column, clipped to a minimum
of 0 exactly when the whole input column is non-negative. -/
theorem extrapolate_1999_two_point_formula_with_clip
    (df : List FRow) (inds : List String) (tc col : String)
    (r2000 r2001 : FRow) (a b : ℚ)
    (hmem : r2000 ∈ df) (hyr : r2000.year = 2000) (htc : r2000.terc_code = tc)
    (hfind : (df.filter (fun r => r.year = 2001)).find?
        (fun s => s.terc_code = tc) = some r2001)
    (hcol : col ∈ inds)
    (ha : r2000.cells.find? (fun p => p.1 = col) = some (col, some a))
    (hb : cellVal r2001.cells col = some b) :
    (extrapolate_1999_data df inds).Perm (df ++ synth1999 df inds) ∧
    (extrapolate_1999_data df inds).Pairwise (fun r s => frowLe r s = true) ∧
    ∃ s ∈ extrapolate_1999_data df inds, s.terc_code = tc ∧ s.year = 1999 ∧
      s.county = r2000.county ∧
      cellVal s.cells col =
        some (if nonnegAll df col then max (2 * a - b) 0 else 2 * a - b) := by
  refine ⟨insSort_perm frowLe _, insSort_pairwise frowLe frowLe_total
    frowLe_trans _, ?_⟩
  have hmem2001 : r2001 ∈ df.filter (fun r => r.year = 2001) :=
    List.mem_of_find?_eq_some hfind
  have hcommon : r2000 ∈ (df.filter (fun r => r.year = 2000)).filter
      (fun r => (df.filter (fun r2 => r2.year = 2001)).any
        (fun s => s.terc_code = r.terc_code)) := by
    rw [List.mem_filter]
    refine ⟨List.mem_filter.2 ⟨hmem, by simpa using hyr⟩, ?_⟩
    rw [List.any_eq_true]
    refine ⟨r2001, hmem2001, ?_⟩
    have := List.find?_some hfind
    simpa [htc] using this
  refine ⟨{ r2000 with
      year := 1999
      cells := r2000.cells.map (synthCell df
        (df.filter (fun r => r.year = 2001)) inds r2000.terc_code) }, ?_, ?_⟩
  · unfold extrapolate_1999_data sortFRows
    rw [(insSort_perm frowLe (df ++ synth1999 df inds)).mem_iff]
    refine List.mem_append_right df ?_
    unfold synth1999
    exact List.mem_map.2 ⟨r2000, hcommon, rfl⟩
  · refine ⟨htc, rfl, rfl, ?_⟩
    have hcv : (r2000.cells.map (synthCell df
        (df.filter (fun r => r.year = 2001)) inds r2000.terc_code)).find?
        (fun p => p.1 = col) =
        some (synthCell df (df.filter (fun r => r.year = 2001)) inds
          r2000.terc_code (col, some a)) :=
      find?_map_keyfixed _ (synthCell_fst df _ inds r2000.terc_code)
        r2000.cells col (col, some a) ha
    unfold cellVal
    rw [hcv]
    unfold synthCell
    rw [if_pos (by simpa using hcol)]
    simp only [htc, hfind, Option.some_bind, hb, Option.map_some']

/-- Closed instantiation of C5: entity "A" with `pop = 10` in 2000 and
`pop = 30` in 2001 (the spec's clip example: `2*10 - 30 = -10`, clipped
to 0 because the column is non-negative throughout). -/
theorem extrapolate_1999_two_point_formula_witness :
    ((([⟨"A", "Foo", 2000, [("pop", some 10)]⟩,
        ⟨"A", "Foo", 2001, [("pop", some 30)]⟩] : List FRow).filter
        (fun r => r.year = 2001)).find? (fun s => s.terc_code = "A") =
      some ⟨"A", "Foo", 2001, [("pop", some 30)]⟩) ∧
    (∃ s ∈ extrapolate_1999_data
        [⟨"A", "Foo", 2000, [("pop", some 10)]⟩,
         ⟨"A", "Foo", 2001, [("pop", some 30)]⟩] ["pop"],
      s.terc_code = "A" ∧ s.year = 1999 ∧ s.county = "Foo" ∧
      cellVal s.cells "pop" =
        some (if nonnegAll
            [⟨"A", "Foo", 2000, [("pop", some 10)]⟩,
             ⟨"A", "Foo", 2001, [("pop", some 30)]⟩] "pop"
          then max (2 * 10 - 30) 0 else 2 * 10 - 30)) :=
  ⟨rfl, (extrapolate_1999_two_point_formula_with_clip
      [⟨"A", "Foo", 2000, [("pop", some 10)]⟩,
       ⟨"A", "Foo", 2001, [("pop", some 30)]⟩] ["pop"] "A" "pop"
      ⟨"A", "Foo", 2000, [("pop", some 10)]⟩
      ⟨"A", "Foo", 2001, [("pop", some 30)]⟩ 10 30
      (by simp) rfl rfl rfl (by simp) rfl rfl).2.2⟩

/-- C10: `synth1999` fabricates a 1999 row exactly for the entity codes
having a row in both 2000 and 2001; each synthesized row is a copy of that
entity's 2000 row (same county, and every non-indicator cell carried over
verbatim) with the year set to 1999; and the output of
`extrapolate_1999_data` consists exactly (as a membership) of the input
rows and these synthesized rows. -/
theorem synth1999_only_common_entities_copy_2000
    (df : List FRow) (inds : List String) :
    (∀ tc : String, (∃ s ∈ synth1999 df inds, s.terc_code = tc) ↔
      ((∃ r ∈ df, r.terc_code = tc ∧ r.year = 2000) ∧
       (∃ r ∈ df, r.terc_code = tc ∧ r.year = 2001))) ∧
    (∀ s ∈ synth1999 df inds, s.year = 1999 ∧
      ∃ r ∈ df, r.year = 2000 ∧ r.terc_code = s.terc_code ∧
        s.county = r.county ∧
        ∀ p ∈ r.cells, p.1 ∉ inds → p ∈ s.cells) ∧
    (∀ s, s ∈ extrapolate_1999_data df inds ↔
      (s ∈ df ∨ s ∈ synth1999 df inds)) := by
  refine ⟨?_, ?_, ?_⟩
  · intro tc
    constructor
    · rintro ⟨s, hs, hstc⟩
      unfold synth1999 at hs
      obtain ⟨r, hrc, rfl⟩ := List.mem_map.1 hs
      rw [List.mem_filter] at hrc
      obtain ⟨hr2000f, hany⟩ := hrc
      rw [List.mem_filter] at hr2000f
      rw [List.any_eq_true] at hany
      obtain ⟨r1, hr1f, hteq⟩ := hany
      rw [List.mem_filter] at hr1f
      constructor
      · exact ⟨r, hr2000f.1, hstc, by simpa using hr2000f.2⟩
      · refine ⟨r1, hr1f.1, ?_, by simpa using hr1f.2⟩
        have h2 : r1.terc_code = r.terc_code := by simpa using hteq
        exact h2.trans hstc
    · rintro ⟨⟨r0, hr0, htc0, hy0⟩, ⟨r1, hr1, htc1, hy1⟩⟩
      refine ⟨{ r0 with
          year := 1999
          cells := r0.cells.map (synthCell df
            (df.filter (fun r => r.year = 2001)) inds r0.terc_code) },
        ?_, htc0⟩
      unfold synth1999
      refine List.mem_map.2 ⟨r0, ?_, rfl⟩
      rw [List.mem_filter]
      refine ⟨List.mem_filter.2 ⟨hr0, by simpa using hy0⟩, ?_⟩
      rw [List.any_eq_true]
      exact ⟨r1, List.mem_filter.2 ⟨hr1, by simpa using hy1⟩,
        by simp [htc1, htc0]⟩
  · intro s hs
    unfold synth1999 at hs
    obtain ⟨r, hrc, rfl⟩ := List.mem_map.1 hs
    rw [List.mem_filter] at hrc
    obtain ⟨h2000f, _⟩ := hrc
    rw [List.mem_filter] at h2000f
    refine ⟨rfl, r, h2000f.1, by simpa using h2000f.2, rfl, rfl, ?_⟩
    intro p hp hpnotin
    have hfix : synthCell df (df.filter (fun r2 => r2.year = 2001)) inds
        r.terc_code p = p := by
      unfold synthCell
      rw [if_neg hpnotin]
    exact hfix ▸ List.mem_map_of_mem _ hp
  · intro s
    unfold extrapolate_1999_data sortFRows
    rw [(insSort_perm frowLe _).mem_iff, List.mem_append]

/-! ## `update_terc_codes` (data_cleaning_methods.py, 55-105) and
`merge_df_by_voivodeship` (data_cleaning_methods.py, 311-362)

For the geographic-code claims the relevant columns are the join column
(`county`), the code column (`terc_code`, `none` = `NaN`), and the
merge keys. -/

structure URow where
  county : String
  code : Option String
deriving DecidableEq, Repr

/-- `astype(str)` on a code cell: a string stays itself, character for
character; a `NaN` cell becomes the literal string `"nan"`. -/
def codeStr (c : Option String) : String := c.getD "nan"

/-- The row of `merged` kept by
`sort_values(by=["_original_index", "match_score"], ascending=[True,
False])` + `drop_duplicates(keep="first")` among one target row's source
matches `ms`: the first match whose 2-character code prefix agrees with the
target's old code, else the first match, else nothing (the left join
produced a single all-`NaN` row). -/
def bestSourceRow (t : URow) (ms : List URow) : Option URow :=
  (ms.find? (fun s => (codeStr s.code).take 2 = (codeStr t.code).take 2)).orElse
    (fun _ => ms.head?)

/-- The code written into one target row: the `astype(str)` code of the
chosen matching source row (`none` when no source row has the same county —
the unmatched left-join `NaN`). -/
def newCode (t : URow) (source : List URow) : Option String :=
  (bestSourceRow t (source.filter (fun s => s.county = t.county))).map
    (fun s => codeStr s.code)

/-- `update_terc_codes`: per target row, replace the code column by the
chosen source row's code. -/
def update_terc_codes (target source : List URow) : List URow :=
  target.map (fun t => { t with code := newCode t source })

structure MRow where
  terc_code : String
  county : String
  year : ℤ
deriving DecidableEq, Repr

structure VRow where
  terc_code : String
  year : ℤ
  value : ℚ
deriving DecidableEq, Repr

/-- `str.zfill(n)`: left-pad with zeros to width `n`. -/
def zfill (n : ℕ) (s : String) : String :=
  if s.length < n then String.mk (List.replicate (n - s.length) '0') ++ s
  else s

/-- `merge_df_by_voivodeship`: left join of the county-level frame with the
voivodeship-level values on `(year, first two characters of the zero-filled
terc code)`; every output row is a main row paired with a matched value, or
with `NaN` when the voivodeship has no row for that year. -/
def merge_df_by_voivodeship (main_df : List MRow) (sec_df : List VRow) :
    List (MRow × Option ℚ) :=
  main_df.flatMap (fun m =>
    let hits := sec_df.filter (fun s => s.year = m.year ∧
      (zfill 2 s.terc_code).take 2 = (zfill 4 m.terc_code).take 2)
    if hits.isEmpty then [(m, none)]
    else hits.map (fun s => (m, some s.value)))

theorem bestSourceRow_mem (t : URow) (ms : List URow) (s : URow)
    (h : bestSourceRow t ms = some s) : s ∈ ms := by
  unfold bestSourceRow at h
  cases hf : ms.find? (fun s2 =>
      (codeStr s2.code).take 2 = (codeStr t.code).take 2) with
  | some s1 =>
    rw [hf] at h
    simp only [Option.orElse] at h
    simp only [Option.some.injEq] at h
    subst h
    exact List.mem_of_find?_eq_some hf
  | none =>
    rw [hf] at h
    simp only [Option.orElse] at h
    cases ms with
    | nil => simp at h
    | cons m rest =>
      simp only [List.head?, Option.some.injEq] at h
      subst h
      exact List.mem_cons_self m rest

/-- C8: entity codes are carried as strings end to end.  In
`update_terc_codes` every output row keeps its county and its code is
either the left-join `NaN` (no matching source row) or **verbatim** the
`astype(str)` image of some matching source row's code — so a source code
string like "02" arrives unchanged, never renumbered.  In
`merge_df_by_voivodeship` every output row's county-level part, including
its `terc_code` string, is one of the input rows unchanged — the
voivodeship key is derived on separate merge-key columns that are dropped
afterwards. -/
theorem terc_codes_preserved_as_strings
    (target source : List URow) (main_df : List MRow) (sec_df : List VRow) :
    List.Forall₂ (fun t o : URow =>
        o.county = t.county ∧
        (o.code = none ∨ ∃ s ∈ source, s.county = t.county ∧
          o.code = some (codeStr s.code)))
      target (update_terc_codes target source) ∧
    (∀ p ∈ merge_df_by_voivodeship main_df sec_df, p.1 ∈ main_df) := by
  constructor
  · unfold update_terc_codes
    rw [List.forall₂_map_right_iff, List.forall₂_same]
    intro t _
    refine ⟨rfl, ?_⟩
    cases hb : bestSourceRow t (source.filter (fun s => s.county = t.county)) with
    | none => left; simp [newCode, hb]
    | some s =>
      right
      have hmem := bestSourceRow_mem t _ s hb
      rw [List.mem_filter] at hmem
      exact ⟨s, hmem.1, by simpa using hmem.2, by simp [newCode, hb]⟩
  · intro p hp
    unfold merge_df_by_voivodeship at hp
    rw [List.mem_flatMap] at hp
    obtain ⟨m, hm, hp2⟩ := hp
    by_cases he : (sec_df.filter (fun s => s.year = m.year ∧
        (zfill 2 s.terc_code).take 2 = (zfill 4 m.terc_code).take 2)).isEmpty
    · rw [if_pos he] at hp2
      rw [List.mem_singleton] at hp2
      rw [hp2]
      exact hm
    · rw [if_neg he] at hp2
      obtain ⟨s, _, rfl⟩ := List.mem_map.1 hp2
      exact hm

/-! ## `generate_email` (ai_agent_methods.py, 5-39)

A customer row and the category-to-instruction mapping are association
lists; the remote chat-completion call (network + response parsing, the
body of the `try` block) is the oracle `client`, whose `none` is any caught
exception.  The three lookups `row["segmentation"]`, `prompt[segment]` and
`row["customer_id"]` happen **before** the `try` block, so their
`KeyError`s escape the function; they are the `Except.error` results. -/

def alookup (m : List (String × String)) (k : String) : Option String :=
  (m.find? (fun p => p.1 = k)).map (fun p => p.2)

/-- The f-string template (condensed: the prose of the prompt is irrelevant
to the claims; what matters is that it interpolates the instruction and the
customer id). -/
def formatted_prompt (instruction customer_id : String) : String :=
  "ROLE: You are an expert Email Marketer. GOAL: Write a warm email based on this idea: "
    ++ instruction
    ++ " OPENING: Start the email EXACTLY with: Dear Customer "
    ++ customer_id ++ ","

def generate_email (row : List (String × String))
    (client : String → Option String) (prompt : List (String × String)) :
    Except String String :=
  (alookup row "segmentation").elim (Except.error "KeyError: segmentation")
    (fun segment =>
      (alookup prompt segment).elim (Except.error "KeyError: prompt")
        (fun instruction =>
          (alookup row "customer_id").elim (Except.error "KeyError: customer_id")
            (fun customer_id =>
              (client (formatted_prompt instruction customer_id)).elim
                (Except.ok "ERROR") (fun email => Except.ok email))))

/-- C9 counterexample: the claim says `generate_email` returns a body or
the sentinel "ERROR" for **every** row and mapping and never raises; but on
a row without a "segmentation" key the lookup happens before the
`try`/`except` boundary and the `KeyError` escapes — the result is an
exception, not a body and not "ERROR". -/
theorem generate_email_raises_on_missing_segmentation :
    generate_email [("customer_id", "7")] (fun _ => some "body") [] =
      Except.error "KeyError: segmentation" := rfl

/-- C9 (amended): when the row provides "segmentation" and "customer_id"
and the mapping provides an instruction for the row's category, then
`generate_email` never raises: it returns the generated body, or exactly
the sentinel "ERROR" when the remote generation call fails.  (As stated
over all inputs the claim is false: a missing row field or category raises
a `KeyError` past the boundary, because those lookups precede the `try`
block.) -/
theorem generate_email_ok_or_sentinel_when_keys_present
    (row prompt : List (String × String)) (client : String → Option String)
    (segment instruction customer_id : String)
    (h1 : alookup row "segmentation" = some segment)
    (h2 : alookup prompt segment = some instruction)
    (h3 : alookup row "customer_id" = some customer_id) :
    generate_email row client prompt =
      Except.ok ((client (formatted_prompt instruction customer_id)).getD
        "ERROR") := by
  unfold generate_email
  rw [h1]
  simp only [Option.elim]
  rw [h2]
  simp only [Option.elim]
  rw [h3]
  simp only [Option.elim]
  cases hc : client (formatted_prompt instruction customer_id) with
  | none => rfl
  | some email => rfl

/-- Closed instantiation of the amended C9: full row and mapping, failing
remote call — the result is `Except.ok "ERROR"`, not an exception. -/
theorem generate_email_ok_or_sentinel_witness :
    (alookup [("segmentation", "vip"), ("customer_id", "7")] "segmentation" =
      some "vip") ∧
    (alookup [("vip", "offer a discount")] "vip" = some "offer a discount") ∧
    (alookup [("segmentation", "vip"), ("customer_id", "7")] "customer_id" =
      some "7") ∧
    generate_email [("segmentation", "vip"), ("customer_id", "7")]
        (fun _ => none) [("vip", "offer a discount")] =
      Except.ok ((((fun _ => none) : String → Option String)
        (formatted_prompt "offer a discount" "7")).getD "ERROR") :=
  ⟨rfl, rfl, rfl,
    generate_email_ok_or_sentinel_when_keys_present
      [("segmentation", "vip"), ("customer_id", "7")]
      [("vip", "offer a discount")] (fun _ => none)
      "vip" "offer a discount" "7" rfl rfl rfl⟩
